import Mathlib

/-!
Verification of the `markable_reader` repository: a capacity-bounded byte
buffer (`src/io/buffer.rs`), a mark/reset reader (`src/io/markable_reader.rs`)
and a double-buffered mark/reset reader
(`src/io/buffered_markable_reader.rs`).

Bytes are modelled as natural numbers, Rust `Vec<u8>` backing stores as
`List ℕ` together with an explicit capacity field, and the inner byte source
as the list of bytes it has not yet produced (cursor semantics: a read yields
`min(requested, remaining)` bytes and `Ok(0)` once empty).

A Rust panic (out-of-bounds slice index) is modelled as `none`; recoverable
`std::io` errors are modelled by `RErr` (`outOfMemory` for
`ErrorKind::OutOfMemory`, `unexpectedEof` for `ErrorKind::UnexpectedEof`).
Each reader state carries a ghost counter `innerReads` counting the physical
read calls issued against the inner source.
-/

/-- `std::io` error kinds produced by this library:
`ErrorKind::OutOfMemory` (capacity exceeded) and `ErrorKind::UnexpectedEof`
(end of stream). -/
inductive RErr where
  | outOfMemory
  | unexpectedEof
deriving DecidableEq

/-- Result of a read-like operation on state type `σ`: `none` models a Rust
panic; otherwise either an error together with the state after the failed
call, or the updated caller buffer, the byte count and the updated state. -/
abbrev RRes (σ : Type) := Option (Except (RErr × σ) (List ℕ × ℕ × σ))

/-- Overwrite `buf` starting at `offset` with the bytes of `src`
(the effect of the copy loops `buf[i + offset] = …`). -/
def writeAt (buf : List ℕ) (offset : ℕ) (src : List ℕ) : List ℕ :=
  buf.take offset ++ src ++ buf.drop (offset + src.length)

/-- `Buffer` from `src/io/buffer.rs`: read cursor `pos`, (dead) field `size`,
optional pending-byte limit, the `Vec<u8>` contents `data` and its capacity
`cap`. -/
structure Buffer where
  pos : ℕ
  size : ℕ
  bufferLimit : Option ℕ
  data : List ℕ
  cap : ℕ
deriving DecidableEq

namespace Buffer

/-- `Buffer::new`: empty store with the given initial capacity and limit. -/
def new (bufferSize : ℕ) (bufferLimit : Option ℕ) : Buffer :=
  ⟨0, 0, bufferLimit, [], bufferSize⟩

/-- `Buffer::len`: number of unread (pending) bytes, `buffer.len() - pos`. -/
def len (b : Buffer) : ℕ := b.data.length - b.pos

/-- `Buffer::get_available_space`:
`(buffer.capacity() - buffer.len()) + pos`. -/
def getAvailableSpace (b : Buffer) : ℕ := (b.cap - b.data.length) + b.pos

/-- `Buffer::clear`: drop everything, report `buffer.len() - pos` bytes
dropped; `Vec::clear` keeps the capacity. -/
def clear (b : Buffer) : Buffer × ℕ :=
  (⟨0, b.size, b.bufferLimit, [], b.cap⟩, b.data.length - b.pos)

/-- `Buffer::size_exceeds_capacity`: with a limit set, whether
`len() + size` exceeds it. -/
def sizeExceedsCapacity (b : Buffer) (size : ℕ) : Bool :=
  match b.bufferLimit with
  | some lim => decide (b.len + size > lim)
  | none => false

/-- `Buffer::prepare_for_bytes`: when the incoming byte count exceeds the
available space, drain the consumed region `[0, pos)` and reset `pos`. -/
def prepareForBytes (b : Buffer) (byteSize : ℕ) : Buffer :=
  if byteSize > b.getAvailableSpace then
    { b with data := b.data.drop b.pos, pos := 0 }
  else b

/-- `Vec` growth on `extend`: unchanged while `newLen` fits, otherwise the
amortized doubling of `RawVec` (`max(2 * cap, required)`, at least 8 for
byte-sized elements). The claims below never depend on the grown value. -/
def vecGrow (cap newLen : ℕ) : ℕ :=
  if newLen ≤ cap then cap else max (max (2 * cap) newLen) 8

/-- `Buffer::append`: error (and no state change) when the limit would be
exceeded, otherwise compact if needed and extend the store. The returned
buffer is the (possibly unchanged) receiver, mirroring `&mut self`. -/
def append (b : Buffer) (l : List ℕ) : Buffer × Option RErr :=
  if b.sizeExceedsCapacity l.length then (b, some .outOfMemory)
  else
    let b1 := b.prepareForBytes l.length
    ({ b1 with
        data := b1.data ++ l,
        cap := vecGrow b1.cap (b1.data.length + l.length) }, none)

/-- `Buffer::read_into`: copies `min(buffer.len(), buf.len() - offset.min(buf.len()))`
bytes starting at `pos` into `buf` at `offset`. The source uses the total
store length, not the pending length, so the copy loop indexes out of bounds
(modelled as `none`) whenever that count reaches past the end of the store. -/
def readInto (b : Buffer) (buf : List ℕ) (offset : ℕ) :
    Option (List ℕ × Buffer × ℕ) :=
  let requested := buf.length - min offset buf.length
  let bytesToRead := min b.data.length requested
  if 0 < bytesToRead ∧ b.data.length < b.pos + bytesToRead then none
  else
    some (writeAt buf offset ((b.data.drop b.pos).take bytesToRead),
      { b with pos := b.pos + bytesToRead }, bytesToRead)

/-- Modelled from the spec: `Buffer::purge_read` is called by
`MarkableReader::mark` but its body is not part of the sources. Per the spec
mark "discards any previously buffered mark bytes … and returns the count
discarded" while recording restarts "from this exact stream position", and
the repository's `test_read_with_popping_bytes` requires the bytes not yet
replayed to survive a re-mark: so it drops exactly the consumed region
`[0, pos)`, rewinds `pos` and reports how many bytes were dropped. -/
def purgeRead (b : Buffer) : Buffer × ℕ :=
  ({ b with data := b.data.drop b.pos, pos := 0 }, b.pos)

/-- Modelled from the spec: `Buffer::restart` is called by
`MarkableReader::reset` but its body is not part of the sources. Per the spec
reset makes the recorded bytes "the pending replay queue consumed by
subsequent Unmarked reads", so it rewinds the read cursor to the start of
the store. -/
def restart (b : Buffer) : Buffer := { b with pos := 0 }

end Buffer

/-- `MarkableReader<R>` from `src/io/markable_reader.rs`, with the inner
source specialised to a cursor over a byte list and a ghost counter of
physical reads. -/
structure MarkableReader where
  inner : List ℕ
  innerComplete : Bool
  isMarked : Bool
  markBuffer : Buffer
  innerReads : ℕ
deriving DecidableEq

namespace MarkableReader

/-- `MarkableReader::new`: unbounded mark buffer with
`DEFAULT_MARKER_BUFFER_SIZE = 2 * 1024` initial capacity. -/
def new (inner : List ℕ) : MarkableReader :=
  ⟨inner, false, false, Buffer.new 2048 none, 0⟩

/-- `MarkableReader::new_with_capacity_and_limit`. -/
def newWithCapacityAndLimit (inner : List ℕ) (capacity limit : ℕ) :
    MarkableReader :=
  ⟨inner, false, false, Buffer.new capacity (some limit), 0⟩

/-- `MarkableReader::fill_from_inner`: returns 0 bytes when
`inner_complete`; otherwise reads the inner source one byte at a time until
`buf` is full past `offset`, failing with `UnexpectedEof` as soon as a
1-byte read returns no data. Every 1-byte call (including the failing one)
counts as a physical read. -/
def fillFromInner (s : MarkableReader) (buf : List ℕ) (offset : ℕ) :
    RRes MarkableReader :=
  if s.innerComplete then some (.ok (buf, 0, s))
  else
    let need := buf.length - offset
    let got := s.inner.take need
    if got.length < need then
      some (.error (.unexpectedEof,
        { s with inner := s.inner.drop got.length,
                 innerReads := s.innerReads + got.length + 1 }))
    else
      some (.ok (writeAt buf offset got, got.length,
        { s with inner := s.inner.drop need,
                 innerReads := s.innerReads + need }))

/-- `MarkableReader::read_data_into_buf_and_marked_stream`: fill from the
inner source past `offset`, then append the last `n` bytes of the buffer
(the freshly read ones) to the mark buffer via `Write::write`. -/
def readDataIntoBufAndMarkedStream (s : MarkableReader) (buf : List ℕ)
    (offset : ℕ) : RRes MarkableReader :=
  match s.fillFromInner buf offset with
  | none => none
  | some (.error e) => some (.error e)
  | some (.ok (buf1, n, s1)) =>
    if 0 < n then
      let innerBytes := buf1.drop (buf1.length - n)
      match s1.markBuffer.append innerBytes with
      | (mb, none) => some (.ok (buf1, n, { s1 with markBuffer := mb }))
      | (_, some e) => some (.error (e, s1))
    else some (.ok (buf1, n, s1))

/-- `MarkableReader::read_into_buf`: when marked, drain the mark buffer
first and record the remainder read from the inner source; when unmarked,
drain the mark buffer (replay) then the inner source, failing with
`UnexpectedEof` when no byte at all was produced. -/
def readIntoBuf (s : MarkableReader) (buf : List ℕ) : RRes MarkableReader :=
  if s.isMarked then
    match s.markBuffer.readInto buf 0 with
    | none => none
    | some (buf1, mb1, k) =>
      match readDataIntoBufAndMarkedStream { s with markBuffer := mb1 } buf1 k with
      | none => none
      | some (.error e) => some (.error e)
      | some (.ok (buf2, n, s2)) => some (.ok (buf2, n + k, s2))
  else
    match s.markBuffer.readInto buf 0 with
    | none => none
    | some (buf1, mb1, k) =>
      match fillFromInner { s with markBuffer := mb1 } buf1 k with
      | none => none
      | some (.error e) => some (.error e)
      | some (.ok (buf2, m, s2)) =>
        if k + m = 0 then some (.error (.unexpectedEof, s2))
        else some (.ok (buf2, k + m, s2))

/-- `MarkableReader::mark` (`MarkerStream` impl): set the flag and purge the
already-replayed prefix of the mark buffer, returning the discarded count. -/
def mark (s : MarkableReader) : MarkableReader × ℕ :=
  let p := s.markBuffer.purgeRead
  ({ s with isMarked := true, markBuffer := p.1 }, p.2)

/-- `MarkableReader::reset` (`MarkerStream` impl): clear the flag and
restart the mark buffer. -/
def reset (s : MarkableReader) : MarkableReader :=
  { s with isMarked := false, markBuffer := s.markBuffer.restart }

/-- `MarkableReader::clear_buffer` (`MarkerStream` impl). -/
def clearBuffer (s : MarkableReader) : MarkableReader :=
  { s with isMarked := false, markBuffer := (s.markBuffer.clear).1 }

/-- `std::io::Read::read` on `MarkableReader` with a zero-initialised
destination of length `n`, returning the delivered bytes `buf[..count]`. -/
def readN (s : MarkableReader) (n : ℕ) :
    Option (Except (RErr × MarkableReader) (List ℕ × MarkableReader)) :=
  match s.readIntoBuf (List.replicate n 0) with
  | none => none
  | some (.error e) => some (.error e)
  | some (.ok (buf, c, s1)) => some (.ok (buf.take c, s1))

/-- Bytes delivered by a successful `read` call, if any. -/
def deliveredN (s : MarkableReader) (n : ℕ) : Option (List ℕ) :=
  match s.readN n with
  | some (.ok (out, _)) => some out
  | _ => none

/-- Reader state after a successful `read` call, if any. -/
def afterRead (s : MarkableReader) (n : ℕ) : Option MarkableReader :=
  match s.readN n with
  | some (.ok (_, s1)) => some s1
  | _ => none

end MarkableReader

/-- `BufferedMarkableReader<R>` from `src/io/buffered_markable_reader.rs`:
the mark/reset reader with an additional read-ahead buffer between the
inner source and the mark logic. -/
structure BufferedMarkableReader where
  inner : List ℕ
  innerComplete : Bool
  isMarked : Bool
  markBuffer : Buffer
  readBuffer : Buffer
  innerReads : ℕ
deriving DecidableEq

namespace BufferedMarkableReader

/-- `BufferedMarkableReader::new`: unbounded mark buffer of initial capacity
`DEFAULT_MARKER_BUFFER_SIZE = 2 * 1024`, read buffer of capacity and limit
`DEFAULT_BUFFER_SIZE = 8 * 1024`. -/
def new (inner : List ℕ) : BufferedMarkableReader :=
  ⟨inner, false, false, Buffer.new 2048 none, Buffer.new 8192 (some 8192), 0⟩

/-- `BufferedMarkableReader::new_with_capacity_and_limit`. -/
def newWithCapacityAndLimit (inner : List ℕ)
    (backBufferCapacity readerBufferCapacity : ℕ) : BufferedMarkableReader :=
  ⟨inner, false, false,
    Buffer.new backBufferCapacity (some backBufferCapacity),
    Buffer.new readerBufferCapacity (some readerBufferCapacity), 0⟩

/-- `BufferedMarkableReader::mark`: set the flag and clear the mark buffer,
returning the number of bytes dropped. -/
def mark (s : BufferedMarkableReader) : BufferedMarkableReader × ℕ :=
  let p := s.markBuffer.clear
  ({ s with isMarked := true, markBuffer := p.1 }, p.2)

/-- `BufferedMarkableReader::reset`: clears the flag only. -/
def reset (s : BufferedMarkableReader) : BufferedMarkableReader :=
  { s with isMarked := false }

/-- `BufferedMarkableReader::fill_read_buffer`: one physical read against
the inner source of size `read_buffer.get_available_space()`, appending
whatever came back into the read buffer with `write_all`. -/
def fillReadBuffer (s : BufferedMarkableReader) :
    Except (RErr × BufferedMarkableReader) BufferedMarkableReader :=
  let readLength := s.readBuffer.getAvailableSpace
  let got := s.inner.take readLength
  let s1 := { s with inner := s.inner.drop readLength,
                     innerReads := s.innerReads + 1 }
  match s1.readBuffer.append got with
  | (_, some e) => .error (e, s1)
  | (rb, none) => .ok { s1 with readBuffer := rb }

/-- `BufferedMarkableReader::fill_from_read_buffer`: returns 0 bytes when
`inner_complete`; otherwise refills the read buffer when it holds fewer
pending bytes than requested (marking the stream complete only when the
refill itself failed with `UnexpectedEof`), then serves the request from
the read buffer. -/
def fillFromReadBuffer (s : BufferedMarkableReader) (buf : List ℕ)
    (offset : ℕ) : RRes BufferedMarkableReader :=
  if s.innerComplete then some (.ok (buf, 0, s))
  else
    let step : Except (RErr × BufferedMarkableReader) BufferedMarkableReader :=
      if s.readBuffer.len < buf.length then
        match s.fillReadBuffer with
        | .error (.unexpectedEof, s1) => .ok { s1 with innerComplete := true }
        | .error e => .error e
        | .ok s1 => .ok s1
      else .ok s
    match step with
    | .error e => some (.error e)
    | .ok s1 =>
      match s1.readBuffer.readInto buf offset with
      | none => none
      | some (buf1, rb, cnt) =>
        some (.ok (buf1, cnt, { s1 with readBuffer := rb }))

/-- `BufferedMarkableReader::read_data_into_buf_and_marked_stream`: fill
from the read buffer, then on any positive count `write_all` the WHOLE
caller buffer (not just the bytes read) into the mark buffer; a zero count
is an `UnexpectedEof` failure. -/
def readDataIntoBufAndMarkedStream (s : BufferedMarkableReader)
    (buf : List ℕ) : RRes BufferedMarkableReader :=
  match s.fillFromReadBuffer buf 0 with
  | none => none
  | some (.error e) => some (.error e)
  | some (.ok (buf1, n, s1)) =>
    if 0 < n then
      match s1.markBuffer.append buf1 with
      | (mb, none) => some (.ok (buf1, n, { s1 with markBuffer := mb }))
      | (_, some e) => some (.error (e, s1))
    else some (.error (.unexpectedEof, s1))

/-- `BufferedMarkableReader::read_into_buf`. -/
def readIntoBuf (s : BufferedMarkableReader) (buf : List ℕ) :
    RRes BufferedMarkableReader :=
  if s.isMarked then s.readDataIntoBufAndMarkedStream buf
  else
    match s.markBuffer.readInto buf 0 with
    | none => none
    | some (buf1, mb1, k) =>
      match fillFromReadBuffer { s with markBuffer := mb1 } buf1 k with
      | none => none
      | some (.error e) => some (.error e)
      | some (.ok (buf2, m, s2)) =>
        if k + m = 0 then some (.error (.unexpectedEof, s2))
        else some (.ok (buf2, k + m, s2))

/-- `std::io::Read::read` on `BufferedMarkableReader` with a
zero-initialised destination of length `n`, returning `buf[..count]`. -/
def readN (s : BufferedMarkableReader) (n : ℕ) :
    Option (Except (RErr × BufferedMarkableReader)
      (List ℕ × BufferedMarkableReader)) :=
  match s.readIntoBuf (List.replicate n 0) with
  | none => none
  | some (.error e) => some (.error e)
  | some (.ok (buf, c, s1)) => some (.ok (buf.take c, s1))

/-- Bytes delivered by a successful `read` call, if any. -/
def deliveredN (s : BufferedMarkableReader) (n : ℕ) : Option (List ℕ) :=
  match s.readN n with
  | some (.ok (out, _)) => some out
  | _ => none

/-- Reader state after a successful `read` call, if any. -/
def afterRead (s : BufferedMarkableReader) (n : ℕ) :
    Option BufferedMarkableReader :=
  match s.readN n with
  | some (.ok (_, s1)) => some s1
  | _ => none

/-- Concatenation of the bytes delivered by a sequence of `read` calls with
the given chunk sizes, stopping at the first call that does not succeed. -/
def readChunks : BufferedMarkableReader → List ℕ → List ℕ
  | _, [] => []
  | s, n :: ns =>
    match s.readN n with
    | some (.ok (out, s1)) => out ++ readChunks s1 ns
    | _ => []

end BufferedMarkableReader

/-- The spec's pending region of a buffer: `data[pos ..]`. -/
def Buffer.pending (b : Buffer) : List ℕ := b.data.drop b.pos

/-- Scenario driver (spec §8, claim C4, simple variant): over `[0,1,2,3]`
read 1 byte, mark, read 3, reset, read 3; yields the first read's bytes,
the mark's discarded count and both 3-byte results. -/
def c4ScenarioSimple : Option (List ℕ × ℕ × List ℕ × List ℕ) :=
  match (MarkableReader.new [0, 1, 2, 3]).readN 1 with
  | some (.ok (o0, s1)) =>
    let m := s1.mark
    match m.1.readN 3 with
    | some (.ok (o1, s3)) =>
      match (s3.reset).readN 3 with
      | some (.ok (o2, _)) => some (o0, m.2, o1, o2)
      | _ => none
    | _ => none
  | _ => none

/-- Scenario driver (spec §8, claim C4, buffered variant). -/
def c4ScenarioBuffered : Option (List ℕ × ℕ × List ℕ × List ℕ) :=
  match (BufferedMarkableReader.new [0, 1, 2, 3]).readN 1 with
  | some (.ok (o0, s1)) =>
    let m := s1.mark
    match m.1.readN 3 with
    | some (.ok (o1, s3)) =>
      match (s3.reset).readN 3 with
      | some (.ok (o2, _)) => some (o0, m.2, o1, o2)
      | _ => none
    | _ => none
  | _ => none

/-- Scenario driver (claim C1): buffered reader over the single byte `[0]`,
marked, one `read` with a 2-byte destination; yields the delivered bytes and
the mark buffer's contents afterwards. -/
def c1Scenario : Option (List ℕ × List ℕ) :=
  match ((BufferedMarkableReader.new [0]).mark).1.readN 2 with
  | some (.ok (out, t)) => some (out, t.markBuffer.data)
  | _ => none

/-- Scenario driver (claim C2): simple reader over `[0,1,2,3]` after
mark, read 2, reset, read 1 (replay of one byte), mark again — a Marked
state whose mark buffer still holds one pending replay byte. -/
def c2State : Option MarkableReader :=
  ((((MarkableReader.new [0, 1, 2, 3]).mark.1.afterRead 2).map
      MarkableReader.reset).bind
    (fun s => s.afterRead 1)).map (fun s => (s.mark).1)

/-- Scenario driver (claim C6, simple variant): two consecutive 1-byte reads
against an exhausted inner source; yields the physical-read counter and
`inner_complete` after the first failure and the counter after the second. -/
def c6ScenarioSimple : Option (ℕ × Bool × ℕ) :=
  match (MarkableReader.new []).readN 1 with
  | some (.error (.unexpectedEof, s1)) =>
    match s1.readN 1 with
    | some (.error (.unexpectedEof, s2)) =>
      some (s1.innerReads, s1.innerComplete, s2.innerReads)
    | _ => none
  | _ => none

/-- Scenario driver (claim C6, buffered variant). -/
def c6ScenarioBuffered : Option (ℕ × Bool × ℕ) :=
  match (BufferedMarkableReader.new []).readN 1 with
  | some (.error (.unexpectedEof, s1)) =>
    match s1.readN 1 with
    | some (.error (.unexpectedEof, s2)) =>
      some (s1.innerReads, s1.innerComplete, s2.innerReads)
    | _ => none
  | _ => none

/-- Scenario driver (claim C8): simple reader over `[0,1,2,3]` after mark,
read 2, reset, read 1 — an Unmarked state mid-replay. -/
def c8State : Option MarkableReader :=
  (((MarkableReader.new [0, 1, 2, 3]).mark.1.afterRead 2).map
      MarkableReader.reset).bind
    (fun s => s.afterRead 1)

/-- Scenario driver (claim C9): simple reader over `[0,1]` after mark,
read 2, reset, read 2 — an Unmarked state whose replay is fully consumed
and whose inner source is exhausted. -/
def c9State : Option MarkableReader :=
  (((MarkableReader.new [0, 1]).mark.1.afterRead 2).map
      MarkableReader.reset).bind
    (fun s => s.afterRead 2)

/-! ## Claim theorems -/

/-- C4: over the stream `[0,1,2,3]`, for both reader variants: reading
1 byte yields `[0]`, `mark()` returns 0 bytes discarded, reading 3 bytes
yields `[1,2,3]`, and after `reset()` reading 3 bytes again yields
`[1,2,3]` — reset replays exactly the bytes delivered since the mark. -/
theorem c4_mark_reset_replays_exact_bytes :
    c4ScenarioSimple = some ([0], 0, [1, 2, 3], [1, 2, 3]) ∧
    c4ScenarioBuffered = some ([0], 0, [1, 2, 3], [1, 2, 3]) :=
  ⟨rfl, rfl⟩

/-- C1 (code bug): for the double-buffered reader over the one-byte stream
`[0]`, marked, a `read` with a 2-byte destination delivers only `[0]` yet
appends the whole destination `[0, 0]` to the mark buffer
(`read_data_into_buf_and_marked_stream` does `write_all(buf)` instead of
`write_all(&buf[..bytes_read])`), so the recorded bytes are not exactly the
bytes delivered to the caller. -/
theorem c1_marked_recording_not_exact :
    c1Scenario = some ([0], [0, 0]) ∧ ([0, 0] : List ℕ) ≠ [0] :=
  ⟨rfl, by decide⟩

/-- C3 (code bug): `read_into` computes the copy count from the total store
length `buffer.len()` instead of the pending length, so on the reachable
buffer with store `[7,8]`, `pos = 1` (one pending byte) and a 2-byte
destination it tries to copy 2 bytes and indexes out of bounds (a panic,
modelled as `none`) instead of copying `min(pending, 2) = 1` byte. -/
theorem c3_read_into_out_of_bounds :
    (⟨1, 0, none, [7, 8], 2⟩ : Buffer).readInto [0, 0] 0 = none ∧
    (⟨1, 0, none, [7, 8], 2⟩ : Buffer).len = 1 :=
  ⟨rfl, rfl⟩

/-- C6 (code bug): end-of-stream is not sticky. For both variants over an
empty inner source, the first 1-byte read fails with `UnexpectedEof` after
one physical read, `inner_complete` is still `false` (the simple variant
never sets it; the buffered one sets it only when the inner read itself
returns an `UnexpectedEof` error, not on the standard `Ok(0)` end of
stream), and the second read issues another physical read. -/
theorem c6_end_of_stream_not_sticky :
    c6ScenarioSimple = some (1, false, 2) ∧
    c6ScenarioBuffered = some (1, false, 2) :=
  ⟨rfl, rfl⟩

/-- C7 (counterexample): for the default double-buffered reader over
`[0,1,2,3]`, two partitions of a total request of 6 bytes deliver different
byte sequences: chunks `[4,2]` deliver `[0,1,2,3]` while chunks `[3,3]`
deliver only `[0,1,2]` (the second 3-byte read panics in
`read_into` once the read-ahead buffer's pending bytes run short). -/
theorem c7_chunking_not_transparent :
    BufferedMarkableReader.readChunks
        (BufferedMarkableReader.new [0, 1, 2, 3]) [4, 2] = [0, 1, 2, 3] ∧
    BufferedMarkableReader.readChunks
        (BufferedMarkableReader.new [0, 1, 2, 3]) [3, 3] = [0, 1, 2] ∧
    ([0, 1, 2, 3] : List ℕ) ≠ [0, 1, 2] :=
  ⟨rfl, rfl, by decide⟩

/-- C2 (counterexample): a reachable Marked state of the simple reader
(mark, read 2, reset, read 1, re-mark over `[0,1,2,3]`) has one pending
replay byte `[1]` in its mark buffer. The next `read(2)` delivers `[1,2]`,
of which byte `1` was pulled from the mark buffer (the inner source only
went from `[2,3]` to `[3]`), and only `[2]` was appended to the mark buffer
(`[1] ++ [1,2] = [1,1,2]` was not). -/
theorem c2_marked_read_pulls_from_mark_buffer :
    c2State = some ⟨[2, 3], false, true, ⟨0, 0, none, [1], 2048⟩, 2⟩ ∧
    MarkableReader.deliveredN
      ⟨[2, 3], false, true, ⟨0, 0, none, [1], 2048⟩, 2⟩ 2 = some [1, 2] ∧
    (MarkableReader.afterRead
        ⟨[2, 3], false, true, ⟨0, 0, none, [1], 2048⟩, 2⟩ 2).map
      (fun t => (t.markBuffer.data, t.inner)) = some ([1, 2], [3]) ∧
    ([1, 2] : List ℕ) ≠ [1] ++ [1, 2] :=
  ⟨rfl, rfl, rfl, by decide⟩

/-- C8 (counterexample): a reachable Unmarked state of the simple reader
(mark, read 2, reset, read 1 over `[0,1,2,3]`) delivers `[1]` on the next
1-byte read, but calling `reset()` first makes that read deliver `[0]`
again: `reset` on a not-marked reader rewinds the mark buffer's cursor and
is observably not a no-op. -/
theorem c8_unmarked_reset_not_noop :
    c8State = some ⟨[2, 3], false, false, ⟨1, 0, none, [0, 1], 2048⟩, 2⟩ ∧
    MarkableReader.deliveredN
      ⟨[2, 3], false, false, ⟨1, 0, none, [0, 1], 2048⟩, 2⟩ 1 = some [1] ∧
    (MarkableReader.reset
        ⟨[2, 3], false, false, ⟨1, 0, none, [0, 1], 2048⟩, 2⟩).deliveredN 1
      = some [0] ∧
    some ([0] : List ℕ) ≠ some [1] :=
  ⟨rfl, rfl, rfl, by decide⟩

/-- C9 (counterexample): a reachable Unmarked state of the simple reader
(mark, read 2, reset, read 2 over `[0,1]`) has no pending mark bytes and an
exhausted inner source, yet a 1-byte read panics in `read_into`
(out-of-bounds, modelled `none`) instead of returning an error. -/
theorem c9_insufficient_supply_panics :
    c9State = some ⟨[], false, false, ⟨2, 0, none, [0, 1], 2048⟩, 2⟩ ∧
    (⟨[], false, false, ⟨2, 0, none, [0, 1], 2048⟩, 2⟩ :
        MarkableReader).markBuffer.len = 0 ∧
    (⟨[], false, false, ⟨2, 0, none, [0, 1], 2048⟩, 2⟩ :
        MarkableReader).readN 1 = none :=
  ⟨rfl, rfl, rfl⟩

/-- Writing nothing changes nothing. -/
theorem writeAt_nil (buf : List ℕ) (offset : ℕ) : writeAt buf offset [] = buf := by
  simp [writeAt]

/-- `writeAt` preserves the destination length when the write fits. -/
theorem writeAt_length (buf src : List ℕ) (offset : ℕ)
    (h : offset + src.length ≤ buf.length) :
    (writeAt buf offset src).length = buf.length := by
  simp only [writeAt, List.length_append, List.length_take, List.length_drop]
  omega

/-- C10: calling `read_into` with an offset at or past the destination
length returns 0 and leaves both the destination and the buffer unchanged —
the offset is clamped, so no arithmetic underflow or out-of-bounds access
occurs at that boundary. -/
theorem c10_read_into_offset_clamped (b : Buffer) (buf : List ℕ) (offset : ℕ)
    (h : buf.length ≤ offset) : b.readInto buf offset = some (buf, b, 0) := by
  cases b with
  | mk pos size lim data cap =>
    simp [Buffer.readInto, Nat.min_eq_right h, writeAt,
      List.take_of_length_le h, List.drop_of_length_le h]

/-- Witness for C10 at a concrete buffer, destination and offset. -/
theorem c10_read_into_offset_clamped_witness :
    (⟨1, 0, none, [5], 4⟩ : Buffer).readInto [7, 7] 3
      = some ([7, 7], ⟨1, 0, none, [5], 4⟩, 0) :=
  c10_read_into_offset_clamped _ _ _ (by decide)

/-- C5: `append` fails with the capacity error exactly when a configured
limit would be exceeded by the pending bytes plus the appended bytes; on
failure the buffer is unchanged; on success the pending bytes are the old
pending bytes followed by the appended bytes in order, the store having
first been compacted (consumed prefix dropped, `pos` reset to 0) precisely
when the incoming bytes exceed the available space. -/
theorem c5_append_capacity_bound (b : Buffer) (l : List ℕ)
    (hw : b.pos ≤ b.data.length) :
    ((b.append l).2 = some .outOfMemory ↔
      ∃ lim, b.bufferLimit = some lim ∧ b.len + l.length > lim) ∧
    ((b.append l).2 = some .outOfMemory → (b.append l).1 = b) ∧
    ((b.append l).2 = none →
      (b.append l).1.pending = b.pending ++ l ∧
      (if l.length > b.getAvailableSpace
       then (b.append l).1.data = b.data.drop b.pos ++ l ∧ (b.append l).1.pos = 0
       else (b.append l).1.data = b.data ++ l ∧ (b.append l).1.pos = b.pos)) := by
  by_cases hex : b.sizeExceedsCapacity l.length
  · have h2 : (b.append l).2 = some .outOfMemory := by
      simp [Buffer.append, hex]
    have h1 : (b.append l).1 = b := by
      simp [Buffer.append, hex]
    refine ⟨?_, fun _ => h1, ?_⟩
    · simp only [h2, true_iff]
      revert hex
      unfold Buffer.sizeExceedsCapacity
      cases b.bufferLimit with
      | none => simp
      | some lim => simp
    · intro hc; rw [h2] at hc; exact absurd hc (by simp)
  · have h2 : (b.append l).2 = none := by
      simp [Buffer.append, hex]
    refine ⟨?_, ?_, ?_⟩
    · simp only [h2]
      constructor
      · intro hc; exact absurd hc (by simp)
      · rintro ⟨lim, hlim, hgt⟩
        exact absurd (by simp [Buffer.sizeExceedsCapacity, hlim, hgt]) hex
    · intro hc; rw [h2] at hc; exact absurd hc (by simp)
    · intro _
      by_cases hcomp : l.length > b.getAvailableSpace
      · have hprep : b.prepareForBytes l.length
            = { b with data := b.data.drop b.pos, pos := 0 } := by
          simp [Buffer.prepareForBytes, hcomp]
        constructor
        · simp [Buffer.append, hex, hprep, Buffer.pending]
        · simp [Buffer.append, hex, hprep, hcomp]
      · have hprep : b.prepareForBytes l.length = b := by
          simp [Buffer.prepareForBytes, hcomp]
        constructor
        · simp only [Buffer.append, hex, Bool.false_eq_true, if_false, hprep,
            Buffer.pending]
          rw [List.drop_append_of_le_length hw]
        · simp [Buffer.append, hex, hprep, hcomp]

/-- Witness for C5: a successful append at a concrete bounded buffer. -/
theorem c5_append_capacity_bound_witness :
    ((⟨1, 0, some 5, [7, 8], 4⟩ : Buffer).append [9]).1.pending = [8, 9] := by
  have h := (c5_append_capacity_bound ⟨1, 0, some 5, [7, 8], 4⟩ [9]
    (by decide)).2.2 (by decide)
  simpa [Buffer.pending] using h.1

/-- C8 (amended): for the double-buffered reader, `reset()` on a not-marked
reader leaves the state unchanged (a true no-op); for the simple reader,
`reset()` on a not-marked reader leaves the state unchanged exactly when
the mark buffer's read cursor is already at the start — in particular it is
a no-op on a never-marked reader — and otherwise rewinds that cursor,
observably re-delivering replayed bytes (see the counterexample). -/
theorem c8_amended_unmarked_reset (s : BufferedMarkableReader)
    (t : MarkableReader) (hs : s.isMarked = false) (ht : t.isMarked = false) :
    BufferedMarkableReader.reset s = s ∧
    (MarkableReader.reset t = t ↔ t.markBuffer.pos = 0) := by
  constructor
  · cases s
    simp only [BufferedMarkableReader.reset]
    simp_all
  · constructor
    · intro h
      have := congrArg (fun x => x.markBuffer.pos) h
      simpa [MarkableReader.reset, Buffer.restart] using this.symm
    · intro h
      cases t with
      | mk inner ic im mb ir =>
        cases mb
        simp only [MarkableReader.reset, Buffer.restart]
        simp_all

/-- Witness for C8 (amended) at concrete never-marked readers. -/
theorem c8_amended_unmarked_reset_witness :
    BufferedMarkableReader.reset (BufferedMarkableReader.new [1, 2])
        = BufferedMarkableReader.new [1, 2] ∧
    MarkableReader.reset (MarkableReader.new [1, 2])
        = MarkableReader.new [1, 2] := by
  have h := c8_amended_unmarked_reset (BufferedMarkableReader.new [1, 2])
    (MarkableReader.new [1, 2]) rfl rfl
  exact ⟨h.1, h.2.mpr rfl⟩


/-- Characterization of a non-panicking `read_into` call: the count is
bounded by the pending length and the room past the offset, the cursor
advances by the count, and the destination keeps its length. -/
theorem readInto_some {b : Buffer} {buf buf1 : List ℕ} {b1 : Buffer}
    {off k : ℕ} (h : b.readInto buf off = some (buf1, b1, k)) :
    k ≤ b.len ∧ k + min off buf.length ≤ buf.length ∧
    b1.pos = b.pos + k ∧ b1.data = b.data ∧
    buf1 = writeAt buf off ((b.data.drop b.pos).take k) ∧
    buf1.length = buf.length := by
  unfold Buffer.readInto at h
  by_cases hp : 0 < min b.data.length (buf.length - min off buf.length) ∧
      b.data.length
        < b.pos + min b.data.length (buf.length - min off buf.length)
  · simp only [hp, and_self, if_true] at h
    exact Option.noConfusion h
  · simp only [hp, if_false, Option.some.injEq, Prod.mk.injEq] at h
    obtain ⟨hbuf, hb1, hk⟩ := h
    subst hk
    rw [← hb1, ← hbuf]
    have hM1 : min b.data.length (buf.length - min off buf.length)
        ≤ b.data.length := Nat.min_le_left _ _
    have hM2 : min b.data.length (buf.length - min off buf.length)
        ≤ buf.length - min off buf.length := Nat.min_le_right _ _
    have hmo : min off buf.length ≤ buf.length := Nat.min_le_right _ _
    refine ⟨?_, by omega, rfl, rfl, rfl, ?_⟩
    · unfold Buffer.len
      rcases Nat.eq_zero_or_pos
        (min b.data.length (buf.length - min off buf.length)) with h0 | h0
      · omega
      · have hnl : ¬ b.data.length < b.pos
            + min b.data.length (buf.length - min off buf.length) :=
          fun hl => hp ⟨h0, hl⟩
        omega
    · rcases le_or_lt off buf.length with hoff | hoff
      · apply writeAt_length
        have hsrc := List.length_take_le
          (min b.data.length (buf.length - min off buf.length))
          (b.data.drop b.pos)
        have hmo2 : min off buf.length = off := Nat.min_eq_left hoff
        omega
      · have hmo2 : min off buf.length = buf.length :=
          Nat.min_eq_right (by omega)
        have hM0 : min b.data.length (buf.length - min off buf.length)
            = 0 := by omega
        rw [hM0]
        rw [show (b.data.drop b.pos).take 0 = [] from rfl, writeAt_nil]

/-- Characterization of a successful `fill_from_inner` on a reader whose
inner source is not flagged complete: it supplies exactly the bytes needed
to fill the destination past the offset, taken in order from the inner
source. -/
theorem fillFromInner_ok {s : MarkableReader} {buf buf1 : List ℕ}
    {m off : ℕ} {s1 : MarkableReader} (hc : s.innerComplete = false)
    (h : s.fillFromInner buf off = some (.ok (buf1, m, s1))) :
    m = buf.length - off ∧ m ≤ s.inner.length ∧
    buf1 = writeAt buf off (s.inner.take m) ∧
    s1 = { s with inner := s.inner.drop m,
                  innerReads := s.innerReads + m } ∧
    buf1.length = buf.length := by
  unfold MarkableReader.fillFromInner at h
  simp only [hc, Bool.false_eq_true, if_false] at h
  by_cases hlt : (s.inner.take (buf.length - off)).length < buf.length - off
  · rw [if_pos hlt] at h
    injection h with h2
    exact Except.noConfusion h2
  · rw [if_neg hlt] at h
    simp only [Option.some.injEq, Except.ok.injEq, Prod.mk.injEq] at h
    obtain ⟨hbuf, hm, hs1⟩ := h
    have ha : (s.inner.take (buf.length - off)).length ≤ buf.length - off :=
      List.length_take_le _ _
    have hb2 : (s.inner.take (buf.length - off)).length
        ≤ s.inner.length := by
      rw [List.length_take]
      exact Nat.min_le_right _ _
    have hm2 : m = buf.length - off := by omega
    have hm3 : m ≤ s.inner.length := by omega
    subst hm2
    refine ⟨rfl, hm3, ?_, ?_, ?_⟩
    · exact hbuf.symm
    · rw [hc]
      exact hs1.symm
    · rw [← hbuf]
      rcases le_or_lt off buf.length with hoff | hoff
      · exact writeAt_length _ _ _ (by omega)
      · have hz : buf.length - off = 0 := by omega
        rw [hz, show s.inner.take 0 = [] from rfl, writeAt_nil]

/-- C9 (amended): for the simple reader with `inner_complete` unset (as
established by every constructor) and a non-empty destination, a successful
`read` always delivers exactly the destination length — never a short
count — and can only succeed when the mark buffer's pending bytes plus the
inner source could supply that many bytes; when they cannot, the call
returns an error or panics in `read_into` (see the counterexample), never a
partial success. -/
theorem c9_amended_no_short_success (s : MarkableReader) (n : ℕ)
    (hc : s.innerComplete = false) (hn : 0 < n) (out : List ℕ)
    (s1 : MarkableReader) (hok : s.readN n = some (.ok (out, s1))) :
    out.length = n ∧ n ≤ s.markBuffer.len + s.inner.length := by
  unfold MarkableReader.readN at hok
  cases hib : s.readIntoBuf (List.replicate n 0) with
  | none => rw [hib] at hok; exact Option.noConfusion hok
  | some r =>
    cases r with
    | error e =>
      rw [hib] at hok
      injection hok with h2
      exact Except.noConfusion h2
    | ok t =>
      obtain ⟨buf2, c, s2⟩ := t
      rw [hib] at hok
      simp only [Option.some.injEq, Except.ok.injEq, Prod.mk.injEq] at hok
      obtain ⟨hout, hs1⟩ := hok
      have hrep : (List.replicate n 0).length = n := List.length_replicate n 0
      unfold MarkableReader.readIntoBuf at hib
      cases hmk : s.isMarked with
      | false =>
        rw [if_neg (by simp [hmk])] at hib
        cases hri : s.markBuffer.readInto (List.replicate n 0) 0 with
        | none => rw [hri] at hib; exact Option.noConfusion hib
        | some q =>
          obtain ⟨buf1, mb1, k⟩ := q
          rw [hri] at hib
          simp only at hib
          obtain ⟨hk1, hk2, -, -, -, hblen⟩ := readInto_some hri
          cases hfi : MarkableReader.fillFromInner
              { s with markBuffer := mb1 } buf1 k with
          | none => rw [hfi] at hib; exact Option.noConfusion hib
          | some r2 =>
            cases r2 with
            | error e2 =>
              rw [hfi] at hib
              simp only at hib
              injection hib with h2
              exact Except.noConfusion h2
            | ok t2 =>
              obtain ⟨bufA, m, sA⟩ := t2
              rw [hfi] at hib
              simp only at hib
              have hc2 : ({ s with markBuffer := mb1 } :
                  MarkableReader).innerComplete = false := hc
              obtain ⟨hm1, hm2, -, -, hblen2⟩ := fillFromInner_ok hc2 hfi
              simp only at hm1 hm2
              by_cases hz : k + m = 0
              · rw [if_pos hz] at hib
                injection hib with h2
                exact Except.noConfusion h2
              · rw [if_neg hz] at hib
                simp only [Option.some.injEq, Except.ok.injEq,
                  Prod.mk.injEq] at hib
                obtain ⟨hbA, hc2, -⟩ := hib
                rw [hrep] at hblen
                rw [hblen] at hm1
                rw [hrep] at hk2
                have hcn : c = n := by omega
                constructor
                · rw [← hout, List.length_take, ← hbA, hblen2, hblen, hcn]
                  omega
                · omega
      | true =>
        rw [if_pos hmk] at hib
        cases hri : s.markBuffer.readInto (List.replicate n 0) 0 with
        | none => rw [hri] at hib; exact Option.noConfusion hib
        | some q =>
          obtain ⟨buf1, mb1, k⟩ := q
          rw [hri] at hib
          simp only at hib
          obtain ⟨hk1, hk2, -, -, -, hblen⟩ := readInto_some hri
          unfold MarkableReader.readDataIntoBufAndMarkedStream at hib
          cases hfi : MarkableReader.fillFromInner
              { s with markBuffer := mb1 } buf1 k with
          | none => rw [hfi] at hib; exact Option.noConfusion hib
          | some r2 =>
            cases r2 with
            | error e2 =>
              rw [hfi] at hib
              simp only at hib
              injection hib with h2
              exact Except.noConfusion h2
            | ok t2 =>
              obtain ⟨bufA, m, sA⟩ := t2
              rw [hfi] at hib
              simp only at hib
              have hc2 : ({ s with markBuffer := mb1 } :
                  MarkableReader).innerComplete = false := hc
              obtain ⟨hm1, hm2, -, -, hblen2⟩ := fillFromInner_ok hc2 hfi
              simp only at hm1 hm2
              rw [hrep] at hblen hk2
              rw [hblen] at hm1
              by_cases hmz : 0 < m
              · rw [if_pos hmz] at hib
                cases happ : sA.markBuffer.append
                    (bufA.drop (bufA.length - m)) with
                | mk mbA oerr =>
                  rw [happ] at hib
                  cases oerr with
                  | none =>
                    simp only [Option.some.injEq, Except.ok.injEq,
                      Prod.mk.injEq] at hib
                    obtain ⟨hbA, hc2, -⟩ := hib
                    have hcn : c = n := by omega
                    constructor
                    · rw [← hout, List.length_take, ← hbA, hblen2, hblen, hcn]
                      omega
                    · omega
                  | some e3 =>
                    simp only at hib
                    injection hib with h2
                    exact Except.noConfusion h2
              · rw [if_neg hmz] at hib
                simp only [Option.some.injEq, Except.ok.injEq,
                  Prod.mk.injEq] at hib
                obtain ⟨hbA, hc2, -⟩ := hib
                have hcn : c = n := by omega
                constructor
                · rw [← hout, List.length_take, ← hbA, hblen2, hblen, hcn]
                  omega
                · omega

/-- Witness for C9 (amended) at a concrete reader and read size. -/
theorem c9_amended_no_short_success_witness :
    (([1, 2] : List ℕ).length = 2 ∧
      2 ≤ (Buffer.new 4 none).len + ([1, 2] : List ℕ).length) :=
  c9_amended_no_short_success ⟨[1, 2], false, false, Buffer.new 4 none, 0⟩ 2
    rfl (by decide) [1, 2] ⟨[], false, false, ⟨0, 0, none, [], 4⟩, 2⟩ rfl

/-- C2 (amended): in the Marked state (with the inner source not flagged
complete), `read(n)` first drains the bytes still pending in the mark
buffer — the replay remainder kept by a re-mark — and then pulls the
remainder from the inner source; exactly the newly pulled inner bytes are
appended to the mark buffer's store, the drained replay bytes staying
recorded in place with only the cursor advancing. Stated as the exact
result of a marked read under side conditions that rule out the `read_into`
out-of-bounds panic (`hnp`), an undersupplied inner source (`hin`), a
configured mark-buffer limit (`hlim`) and mark-buffer compaction
(`hroom`). -/
theorem c2_amended_marked_read (s : MarkableReader) (n : ℕ)
    (hm : s.isMarked = true) (hc : s.innerComplete = false)
    (hlim : s.markBuffer.bufferLimit = none)
    (hwf : s.markBuffer.pos ≤ s.markBuffer.data.length)
    (hcap : s.markBuffer.data.length ≤ s.markBuffer.cap)
    (hnp : s.markBuffer.pos = 0 ∨ n ≤ s.markBuffer.len)
    (hin : n - min s.markBuffer.len n ≤ s.inner.length)
    (hroom : n - min s.markBuffer.len n ≤ s.markBuffer.getAvailableSpace) :
    s.readN n = some (.ok (
      s.markBuffer.pending.take (min s.markBuffer.len n)
        ++ s.inner.take (n - min s.markBuffer.len n),
      { s with
          inner := s.inner.drop (n - min s.markBuffer.len n),
          innerReads := s.innerReads + (n - min s.markBuffer.len n),
          markBuffer := { s.markBuffer with
              pos := s.markBuffer.pos + min s.markBuffer.len n,
              data := s.markBuffer.data
                ++ s.inner.take (n - min s.markBuffer.len n),
              cap := Buffer.vecGrow s.markBuffer.cap
                (s.markBuffer.data.length
                  + (n - min s.markBuffer.len n)) } })) := by
  obtain ⟨inner, ic, im, mb, ir⟩ := s
  obtain ⟨p, sz, lim, D, cap⟩ := mb
  simp only at hm hc hlim hwf hcap hnp hin hroom
  subst hm hc hlim
  simp only [MarkableReader.readN, MarkableReader.readIntoBuf, Buffer.pending,
    Buffer.len] at hnp hin hroom ⊢
  simp only [if_true]
  -- notation for the split point and the inner bytes pulled
  set k := min (D.length - p) n with hkdef
  set g := inner.take (n - k) with hgdef
  have hkn : k ≤ n := Nat.min_le_right _ _
  have hklen : k ≤ D.length - p := Nat.min_le_left _ _
  -- the initial drain of the mark buffer
  have hbtr : min D.length ((List.replicate n (0 : ℕ)).length
      - min 0 (List.replicate n (0 : ℕ)).length) = k := by
    rw [List.length_replicate, Nat.zero_min, Nat.sub_zero]
    rcases hnp with h0 | h0
    · rw [hkdef, h0, Nat.sub_zero]
    · rw [hkdef, Nat.min_eq_right h0, Nat.min_eq_right (by omega)]
  have hsrc : ((D.drop p).take k).length = k := by
    rw [List.length_take, List.length_drop]
    exact Nat.min_eq_left hklen
  have h1 : Buffer.readInto ⟨p, sz, none, D, cap⟩ (List.replicate n 0) 0
      = some ((D.drop p).take k ++ List.replicate (n - k) 0,
          ⟨p + k, sz, none, D, cap⟩, k) := by
    unfold Buffer.readInto
    simp only [hbtr]
    rw [if_neg (by omega)]
    simp only [writeAt, List.take_zero, List.nil_append, Nat.zero_add, hsrc,
      List.drop_replicate]
  rw [h1]
  simp only []
  -- the fill from the inner source past offset k
  have hlen1 : ((D.drop p).take k ++ List.replicate (n - k) 0).length = n := by
    rw [List.length_append, hsrc, List.length_replicate]
    omega
  have hglen : g.length = n - k := by
    rw [hgdef, List.length_take]
    exact Nat.min_eq_left hin
  have h2 : MarkableReader.fillFromInner
      ⟨inner, false, true, ⟨p + k, sz, none, D, cap⟩, ir⟩
      ((D.drop p).take k ++ List.replicate (n - k) 0) k
      = some (.ok ((D.drop p).take k ++ g, n - k,
          ⟨inner.drop (n - k), false, true, ⟨p + k, sz, none, D, cap⟩,
            ir + (n - k)⟩)) := by
    unfold MarkableReader.fillFromInner
    rw [if_neg (by simp)]
    simp only [hlen1, ← hgdef]
    rw [if_neg (by omega)]
    simp only [writeAt, hglen]
    rw [List.take_append_of_le_length (by omega), List.take_take,
      Nat.min_self]
    rw [show k + (n - k) = n by omega]
    have hble : (List.take k (List.drop p D)
        ++ List.replicate (n - k) (0 : ℕ)).length ≤ n := le_of_eq hlen1
    rw [List.drop_of_length_le hble, List.append_nil]
  unfold MarkableReader.readDataIntoBufAndMarkedStream
  rw [h2]
  simp only []
  by_cases hm0 : 0 < n - k
  · rw [if_pos hm0]
    have hdrop : (((D.drop p).take k) ++ g).drop
        ((((D.drop p).take k) ++ g).length - (n - k)) = g := by
      have hl : (((D.drop p).take k) ++ g).length - (n - k)
          = ((D.drop p).take k).length := by
        rw [List.length_append, hsrc, hglen]
        omega
      rw [hl]
      exact List.drop_left _ _
    rw [hdrop]
    have h3 : Buffer.append ⟨p + k, sz, none, D, cap⟩ g
        = (⟨p + k, sz, none, D ++ g,
            Buffer.vecGrow cap (D.length + (n - k))⟩, none) := by
      unfold Buffer.append Buffer.sizeExceedsCapacity
      simp only []
      rw [if_neg (by simp)]
      unfold Buffer.prepareForBytes Buffer.getAvailableSpace
      rw [if_neg (by
        simp only [not_lt, gt_iff_lt, not_lt]
        unfold Buffer.getAvailableSpace at hroom
        simp only at hroom
        omega)]
      simp only [hglen]
    rw [h3]
    simp only []
    rw [show n - k + k = n by omega]
    have htk : ((D.drop p).take k ++ g).take n = (D.drop p).take k ++ g := by
      apply List.take_of_length_le
      rw [List.length_append, hsrc, hglen]
      omega
    rw [htk]
  · rw [if_neg hm0]
    have hnk : n - k = 0 := by omega
    simp only [hnk]
    rw [show (0 : ℕ) + k = k by omega]
    have hg0 : g = [] := by rw [hgdef, hnk]; rfl
    have htk : ((D.drop p).take k ++ g).take k = (D.drop p).take k := by
      rw [hg0, List.append_nil]
      rw [List.take_take, Nat.min_self]
    rw [htk, hg0, List.append_nil, List.append_nil, List.drop_zero]
    rw [show D.length + 0 = D.length by omega]
    have hvg : Buffer.vecGrow cap D.length = cap := by
      unfold Buffer.vecGrow
      rw [if_pos hcap]
    rw [hvg]

/-- Witness for C2 (amended): a concrete marked reader with one pending
replay byte delivers it followed by one inner byte, appending only the
inner byte to the mark buffer's store. -/
theorem c2_amended_marked_read_witness :
    MarkableReader.readN ⟨[5, 6], false, true, ⟨0, 0, none, [9], 16⟩, 0⟩ 2
      = some (.ok ([9, 5],
          ⟨[6], false, true, ⟨1, 0, none, [9, 5], 16⟩, 1⟩)) := by
  have h := c2_amended_marked_read
    ⟨[5, 6], false, true, ⟨0, 0, none, [9], 16⟩, 0⟩ 2 rfl rfl rfl
    (by decide) (by decide) (Or.inl rfl) (by decide) (by decide)
  simpa using h

/-- Helper: one mid-stream read of the default buffered reader whose
read-ahead buffer already holds the whole input delivers the next `n`
bytes without touching the inner source. -/
theorem c7_step (input : List ℕ) (r c n : ℕ) (hn : 0 < n)
    (hcn : c + n ≤ input.length) :
    BufferedMarkableReader.readN
      ⟨[], false, false, ⟨0, 0, none, [], 2048⟩,
        ⟨c, 0, some 8192, input, 8192⟩, r⟩ n
      = some (.ok ((input.drop c).take n,
          ⟨[], false, false, ⟨0, 0, none, [], 2048⟩,
            ⟨c + n, 0, some 8192, input, 8192⟩, r⟩)) := by
  have h1 : Buffer.readInto ⟨0, 0, none, [], 2048⟩ (List.replicate n 0) 0
      = some (List.replicate n 0, ⟨0, 0, none, [], 2048⟩, 0) := by
    unfold Buffer.readInto
    simp [writeAt]
  have hsl : ((input.drop c).take n).length = n := by
    rw [List.length_take, List.length_drop]
    exact Nat.min_eq_left (by omega)
  have h2 : Buffer.readInto ⟨c, 0, some 8192, input, 8192⟩
      (List.replicate n 0) 0
      = some ((input.drop c).take n, ⟨c + n, 0, some 8192, input, 8192⟩, n) := by
    unfold Buffer.readInto
    simp only [List.length_replicate, Nat.zero_min, Nat.sub_zero]
    rw [Nat.min_eq_right (by omega : n ≤ input.length)]
    rw [if_neg (by omega)]
    simp only [writeAt, List.take_zero, List.nil_append, Nat.zero_add, hsl,
      List.drop_replicate, Nat.sub_self, List.replicate_zero, List.append_nil]
  unfold BufferedMarkableReader.readN BufferedMarkableReader.readIntoBuf
  simp only [Bool.false_eq_true, if_false]
  rw [h1]
  simp only []
  unfold BufferedMarkableReader.fillFromReadBuffer
  simp only [Bool.false_eq_true, if_false]
  rw [if_neg (by
    rw [Buffer.len, List.length_replicate]
    simp only []
    omega)]
  simp only []
  rw [h2]
  simp only []
  rw [if_neg (by omega)]
  simp only [Nat.zero_add]
  rw [List.take_of_length_le (le_of_eq hsl)]

/-- Helper: chunked reads of the default buffered reader whose read-ahead
buffer already holds the whole input deliver consecutive slices. -/
theorem c7_aux (chunks : List ℕ) :
    ∀ (input : List ℕ) (r c : ℕ), (∀ n ∈ chunks, 0 < n) →
    c + chunks.sum ≤ input.length →
    BufferedMarkableReader.readChunks
      ⟨[], false, false, ⟨0, 0, none, [], 2048⟩,
        ⟨c, 0, some 8192, input, 8192⟩, r⟩ chunks
      = (input.drop c).take chunks.sum := by
  induction chunks with
  | nil =>
    intro input r c _ _
    simp [BufferedMarkableReader.readChunks]
  | cons n ns ih =>
    intro input r c hpos hsum
    have hn : 0 < n := hpos n (List.mem_cons_self n ns)
    rw [List.sum_cons] at hsum
    unfold BufferedMarkableReader.readChunks
    rw [c7_step input r c n hn (by omega)]
    simp only []
    rw [ih input r (c + n) (fun m hm => hpos m (List.mem_cons_of_mem n hm))
      (by omega)]
    rw [List.sum_cons, List.take_add, List.drop_drop]

/-- C7 (amended): for the default-constructed double-buffered reader over
an input that fits its read-ahead buffer (at most 8192 bytes), any sequence
of positive chunk sizes whose total does not exceed the input length
delivers exactly `input.take(total)` — so the delivered concatenation is
independent of how the total request is partitioned. (Beyond the available
input the delivered prefix depends on the chunking; see the
counterexample.) -/
theorem c7_amended_chunking_transparent (input chunks : List ℕ)
    (hpos : ∀ n ∈ chunks, 0 < n) (hsum : chunks.sum ≤ input.length)
    (hfit : input.length ≤ 8192) :
    BufferedMarkableReader.readChunks (BufferedMarkableReader.new input)
      chunks = input.take chunks.sum := by
  cases chunks with
  | nil => simp [BufferedMarkableReader.readChunks]
  | cons n ns =>
    have hn : 0 < n := hpos n (List.mem_cons_self n ns)
    rw [List.sum_cons] at hsum
    have htake : input.take 8192 = input := List.take_of_length_le (by omega)
    have hdrop : input.drop 8192 = [] := List.drop_of_length_le (by omega)
    have hfrb : BufferedMarkableReader.fillReadBuffer
        ⟨input, false, false, ⟨0, 0, none, [], 2048⟩,
          ⟨0, 0, some 8192, [], 8192⟩, 0⟩
        = .ok ⟨[], false, false, ⟨0, 0, none, [], 2048⟩,
            ⟨0, 0, some 8192, input, 8192⟩, 1⟩ := by
      unfold BufferedMarkableReader.fillReadBuffer Buffer.getAvailableSpace
        Buffer.append Buffer.sizeExceedsCapacity Buffer.len
        Buffer.prepareForBytes Buffer.getAvailableSpace Buffer.vecGrow
      have hgt : ¬ input.length > 8192 := by omega
      have hgt0 : ¬ 0 + input.length > 8192 := by omega
      simp only [List.length_nil, Nat.sub_zero, Nat.add_zero, htake, hdrop,
        decide_eq_true_eq, if_neg hgt, if_neg hgt0]
      simp only [List.nil_append, List.length_nil, Nat.zero_add]
      rw [if_pos hfit]
    have h1 : Buffer.readInto ⟨0, 0, none, [], 2048⟩ (List.replicate n 0) 0
        = some (List.replicate n 0, ⟨0, 0, none, [], 2048⟩, 0) := by
      unfold Buffer.readInto
      simp [writeAt]
    have hsl : (input.take n).length = n := by
      rw [List.length_take]
      exact Nat.min_eq_left (by omega)
    have h2 : Buffer.readInto ⟨0, 0, some 8192, input, 8192⟩
        (List.replicate n 0) 0
        = some (input.take n, ⟨n, 0, some 8192, input, 8192⟩, n) := by
      unfold Buffer.readInto
      simp only [List.length_replicate, Nat.zero_min, Nat.sub_zero]
      rw [Nat.min_eq_right (by omega : n ≤ input.length)]
      rw [if_neg (by omega)]
      simp only [writeAt, List.take_zero, List.nil_append, Nat.zero_add, hsl,
        List.drop_zero, List.drop_replicate, Nat.sub_self, List.replicate_zero,
        List.append_nil]
    have hread : BufferedMarkableReader.readN
        (BufferedMarkableReader.new input) n
        = some (.ok (input.take n,
            ⟨[], false, false, ⟨0, 0, none, [], 2048⟩,
              ⟨n, 0, some 8192, input, 8192⟩, 1⟩)) := by
      unfold BufferedMarkableReader.readN BufferedMarkableReader.readIntoBuf
        BufferedMarkableReader.new Buffer.new
      simp only [Bool.false_eq_true, if_false]
      rw [h1]
      simp only []
      unfold BufferedMarkableReader.fillFromReadBuffer
      simp only [Bool.false_eq_true, if_false]
      rw [if_pos (by
        rw [Buffer.len, List.length_replicate]
        simp only [List.length_nil]
        omega)]
      rw [hfrb]
      simp only []
      rw [h2]
      simp only []
      rw [if_neg (by omega)]
      simp only [Nat.zero_add]
      rw [List.take_of_length_le (le_of_eq hsl)]
    unfold BufferedMarkableReader.readChunks
    rw [hread]
    simp only []
    rw [c7_aux ns input 1 n (fun m hm => hpos m (List.mem_cons_of_mem n hm))
      (by omega)]
    rw [List.sum_cons, List.take_add]

/-- Witness for C7 (amended) at a concrete input and partition. -/
theorem c7_amended_chunking_transparent_witness :
    BufferedMarkableReader.readChunks
      (BufferedMarkableReader.new [3, 1, 4, 1]) [1, 3] = [3, 1, 4, 1] := by
  have h := c7_amended_chunking_transparent [3, 1, 4, 1] [1, 3]
    (by decide) (by decide) (by decide)
  simpa using h
